import Mathlib

/-!
Shallow embedding of the mtext-editor core (src/modelConverter.ts and
src/htmlConverter.ts): the TinyMCE-like document model, the model-to-MText
serializer, and the HTML-to-model formatting/paragraph extraction helpers.
Strings are modelled as `List Char`; JavaScript numbers as `Option Rat`
(`none` standing for NaN); absent object fields as `Option`.
-/

/-- A JavaScript number: `none` models NaN, `some q` a finite value.
JS binary floating point is modelled by exact rationals; the claims below
never depend on rounding behaviour. -/
abbrev JsNum := Option Rat

/-- JS truthiness of a number: 0 and NaN are falsy. -/
def jsNumTruthy (v : JsNum) : Bool :=
  match v with
  | none => false
  | some q => decide (q ≠ 0)

/-- JS truthiness of an optional number field: undefined, NaN and 0 are falsy. -/
def jsOptNumTruthy (v : Option JsNum) : Bool :=
  match v with
  | none => false
  | some q => jsNumTruthy q

/-- JS truthiness of an optional string field: undefined and the empty string
are falsy. -/
def jsOptStrTruthy (v : Option (List Char)) : Bool :=
  match v with
  | none => false
  | some s => decide (s ≠ [])

/-- Decimal rendering of a natural number, as JS `Number#toString` renders
nonnegative integers. -/
def natStr (n : Nat) : List Char := (Nat.repr n).data

/-- Decimal rendering of an integer, as JS renders integral numbers. -/
def intStr (i : Int) : List Char := (Int.repr i).data

/-- Rendering of a JS number into a string. Integral values render as JS
does; non-integral rationals are rendered as `num/den`, an abstraction of
JS decimal expansion (no claim below depends on the non-integral shape). -/
def jsNumStr (v : JsNum) : List Char :=
  match v with
  | none => ("NaN").data
  | some q => if q.den = 1 then intStr q.num else intStr q.num ++ '/' :: natStr q.den

/-- Left-to-right, non-overlapping global replacement of a two-character
pattern (each position given by a predicate), modelling a JS
`String#replace` with a `/../g` regex of two single-char atoms. -/
def replacePair (m1 m2 : Char → Bool) (rep : List Char) : List Char → List Char
  | [] => []
  | [c] => [c]
  | c1 :: c2 :: rest =>
    if m1 c1 && m2 c2 then rep ++ replacePair m1 m2 rep rest
    else c1 :: replacePair m1 m2 rep (c2 :: rest)

/-- Left-to-right, non-overlapping global replacement of a three-character
pattern, modelling a JS `String#replace` with a `/.../g` regex of three
single-char atoms (the last possibly a character class). -/
def replaceTriple (m1 m2 m3 : Char → Bool) (rep : List Char) : List Char → List Char
  | [] => []
  | [c] => [c]
  | [c1, c2] => [c1, c2]
  | c1 :: c2 :: c3 :: rest =>
    if m1 c1 && m2 c2 && m3 c3 then rep ++ replaceTriple m1 m2 m3 rep rest
    else c1 :: replaceTriple m1 m2 m3 rep (c2 :: c3 :: rest)

/-- `encodeMText` from modelConverter.ts: the caret escapes (`^I` to tab
command, `^J` to line-break command, `^M` removed, caret-space to a literal
caret) followed by the percent escapes (`%%c`/`%%C` to `Ø`, `%%d`/`%%D` to
`°`, `%%p`/`%%P` to `±`), applied as seven sequential global replaces. -/
def encodeMText (text : List Char) : List Char :=
  let t1 := replacePair (· = '^') (· = 'I') ['\\', 't'] text
  let t2 := replacePair (· = '^') (· = 'J') ['\\', 'P'] t1
  let t3 := replacePair (· = '^') (· = 'M') [] t2
  let t4 := replacePair (· = '^') (· = ' ') ['^'] t3
  let t5 := replaceTriple (· = '%') (· = '%') (fun c => c = 'c' || c = 'C') ['Ø'] t4
  let t6 := replaceTriple (· = '%') (· = '%') (fun c => c = 'd' || c = 'D') ['°'] t5
  replaceTriple (· = '%') (· = '%') (fun c => c = 'p' || c = 'P') ['±'] t6

/-- Paragraph alignment values of the model (types.ts `ParagraphProperties.align`). -/
inductive PAlign : Type where
  | left | right | center | justified | distributed
deriving DecidableEq, Repr

/-- The serializer's alignment map (modelConverter.ts `paragraphCommand`):
every model alignment value has an entry, so the `|| 'ql'` fallback in the
source is unreachable. -/
def alignCode (a : PAlign) : List Char :=
  match a with
  | .left => ['q', 'l']
  | .right => ['q', 'r']
  | .center => ['q', 'c']
  | .justified => ['q', 'j']
  | .distributed => ['q', 'd']

/-- Paragraph properties (types.ts `ParagraphProperties`). -/
structure ParaProps : Type where
  indent : Option JsNum := none
  left : Option JsNum := none
  right : Option JsNum := none
  align : Option PAlign := none
  tabs : Option (List JsNum) := none
deriving DecidableEq, Repr

/-- Character/font level formatting fields of a node (types.ts `TinyMceNode`). -/
structure Fmt : Type where
  bold : Option Bool := none
  italic : Option Bool := none
  underline : Option Bool := none
  overline : Option Bool := none
  strikethrough : Option Bool := none
  subscript : Option Bool := none
  superscript : Option Bool := none
  color : Option JsNum := none
  rgbColor : Option JsNum := none
  font : Option (List Char) := none
  fontBold : Option Bool := none
  fontItalic : Option Bool := none
  height : Option JsNum := none
  width : Option JsNum := none
  tracking : Option JsNum := none
  slant : Option JsNum := none
deriving DecidableEq, Repr

/-- The all-absent formatting record (a node carrying no formatting fields). -/
def noFmt : Fmt := {}

/-- Stacked-fraction descriptor (types.ts `stack` field). -/
structure StackInfo : Type where
  numerator : List Char
  denominator : List Char
  divider : Option (List Char) := none
deriving DecidableEq, Repr

/-- Node types (types.ts `TinyMceNodeType`); `generic` covers the
lower-cased tag names the HTML parser may inject for unknown elements. -/
inductive NType : Type where
  | text | br | ol | ul | li | paragraph
  | generic (name : List Char)
deriving DecidableEq, Repr

/-- Truthiness of an optional boolean field (JS: undefined and false falsy). -/
def jsOptBoolTruthy (v : Option Bool) : Bool :=
  match v with
  | none => false
  | some b => b

/-- The nullish-coalescing chain `node.font ?? node.bold ?? node.italic` of
applyFormatting, tested for truthiness: the first defined field decides
(a string is truthy iff nonempty, a boolean iff true). -/
def fontChainTruthy (f : Fmt) : Bool :=
  match f.font with
  | some fam => decide (fam ≠ [])
  | none =>
    match f.bold with
    | some b => b
    | none =>
      match f.italic with
      | some i => i
      | none => false

/-- `fontCommand` from modelConverter.ts: family defaults to `Arial`;
`fontBold ?? bold` and `fontItalic ?? italic` pick the bold/italic bits. -/
def fontCommand (f : Fmt) : List Char :=
  let family := f.font.getD (("Arial").data)
  let boldBit : List Char := if jsOptBoolTruthy (f.fontBold.orElse fun _ => f.bold)
    then ['b', '1'] else ['b', '0']
  let italicBit : List Char := if jsOptBoolTruthy (f.fontItalic.orElse fun _ => f.italic)
    then ['i', '1'] else ['i', '0']
  family ++ '|' :: boldBit ++ '|' :: italicBit

/-- The opening brace character (written by code point to keep string
literals brace-free). -/
def lbrace : Char := Char.ofNat 123

/-- The closing brace character. -/
def rbrace : Char := Char.ofNat 125

/-- JS ToInt32 followed by `& 0xffffff`: truncation toward zero (NaN to 0)
then the value modulo 2^24 (the low 24 bits of the 32-bit two's-complement
form). -/
def mask24 (v : JsNum) : Int :=
  match v with
  | none => 0
  | some q => (q.num.tdiv (q.den : Int)) % 16777216

/-- `applyFormatting` from modelConverter.ts: builds the prefix codes
(`\L`, `\O`, `\K`, `\C`, `\c`, `\H`, `\W`, `\T`, `\Q`, `\f`), wraps
superscript/subscript text in self-contained stack commands, and brace-wraps
the result when any prefix code was produced. -/
def applyFormatting (text : List Char) (f : Fmt) : List Char :=
  let codes : List Char := []
  let codes := if jsOptBoolTruthy f.underline then codes ++ ['\\', 'L'] else codes
  let codes := if jsOptBoolTruthy f.overline then codes ++ ['\\', 'O'] else codes
  let codes := if jsOptBoolTruthy f.strikethrough then codes ++ ['\\', 'K'] else codes
  let text := if jsOptBoolTruthy f.superscript
    then '\\' :: 'S' :: text ++ ['^', ' ', ';'] else text
  let text := if jsOptBoolTruthy f.subscript
    then '\\' :: 'S' :: '^' :: ' ' :: text ++ [';'] else text
  let codes := if jsOptNumTruthy f.color
    then codes ++ '\\' :: 'C' :: jsNumStr (f.color.getD none) ++ [';'] else codes
  let codes := if jsOptNumTruthy f.rgbColor
    then codes ++ '\\' :: 'c' :: intStr (mask24 (f.rgbColor.getD none)) ++ [';'] else codes
  let codes := if jsOptNumTruthy f.height
    then codes ++ '\\' :: 'H' :: jsNumStr (f.height.getD none) ++ [';'] else codes
  let codes := if jsOptNumTruthy f.width
    then codes ++ '\\' :: 'W' :: jsNumStr (f.width.getD none) ++ [';'] else codes
  let codes := if jsOptNumTruthy f.tracking
    then codes ++ '\\' :: 'T' :: jsNumStr (f.tracking.getD none) ++ ['x', ';'] else codes
  let codes := if jsOptNumTruthy f.slant
    then codes ++ '\\' :: 'Q' :: jsNumStr (f.slant.getD none) ++ [';'] else codes
  let codes := if fontChainTruthy f
    then codes ++ '\\' :: 'f' :: fontCommand f ++ [';'] else codes
  if codes ≠ [] then lbrace :: codes ++ text ++ [rbrace] else text

/-- `stackCommand` from modelConverter.ts: the divider defaults to `^`, and
a caret divider becomes caret-space so the caret is not decoded as an
escape. -/
def stackCommand (numerator denominator : List Char) (divider : Option (List Char)) : List Char :=
  let d := divider.getD ['^']
  let d := if d = ['^'] then ['^', ' '] else d
  '\\' :: 'S' :: numerator ++ d ++ denominator ++ [';']

/-- JS `Array#join(',')` over rendered numbers. -/
def joinNumsComma (ts : List JsNum) : List Char :=
  match ts with
  | [] => []
  | [t] => jsNumStr t
  | t :: rest => jsNumStr t ++ ',' :: joinNumsComma rest

/-- `paragraphCommand` from modelConverter.ts: `\p` then, in source order,
optional `i`/`l`/`r` numeric fields each with a trailing comma, the
alignment code (with trailing comma when the align field is set, bare `ql`
when not), optional `t` tab list with a trailing comma, then the trailing
comma (if any) is stripped and `;` appended. -/
def paragraphCommand (p : ParaProps) : List Char :=
  let cmd : List Char := ['\\', 'p']
  let cmd := match p.indent with
    | some v => cmd ++ ('i' :: jsNumStr v) ++ [',']
    | none => cmd
  let cmd := match p.left with
    | some v => cmd ++ ('l' :: jsNumStr v) ++ [',']
    | none => cmd
  let cmd := match p.right with
    | some v => cmd ++ ('r' :: jsNumStr v) ++ [',']
    | none => cmd
  let cmd := match p.align with
    | some a => cmd ++ alignCode a ++ [',']
    | none => cmd ++ ['q', 'l']
  let cmd := match p.tabs with
    | some ts => if ts.length > 0 then cmd ++ ('t' :: joinNumsComma ts) ++ [','] else cmd
    | none => cmd
  let cmd := if cmd.getLast? = some ',' then cmd.dropLast else cmd
  cmd ++ [';']


/-- A node of the TinyMCE-like document model (types.ts `TinyMceNode`).
`children = none` models an absent `children` field, distinct from an
empty (but present) array. -/
inductive MNode : Type where
  | mk (ntype : NType) (text : Option (List Char)) (children : Option (List MNode))
      (fmt : Fmt) (stack : Option StackInfo) (para : Option ParaProps)

/-- The node's type discriminant. -/
def MNode.ntype : MNode → NType
  | .mk t _ _ _ _ _ => t

/-- The node's optional text content. -/
def MNode.text : MNode → Option (List Char)
  | .mk _ tx _ _ _ _ => tx

/-- The node's optional children array. -/
def MNode.children : MNode → Option (List MNode)
  | .mk _ _ ch _ _ _ => ch

/-- The node's formatting fields. -/
def MNode.fmt : MNode → Fmt
  | .mk _ _ _ f _ _ => f

/-- The node's optional stacked-fraction descriptor. -/
def MNode.stack : MNode → Option StackInfo
  | .mk _ _ _ _ st _ => st

/-- The node's optional paragraph properties. -/
def MNode.para : MNode → Option ParaProps
  | .mk _ _ _ _ _ pa => pa

/-- The list flavour recorded in a serialization context. -/
inductive LKind : Type where
  | ul | ol
deriving DecidableEq, Repr

/-- The transient list context threaded through `nodeToMText` (the
`listContext` parameter): list flavour, nesting depth, and the per-depth
ordered-list counter array. Array cells are `Option Nat`, `none` modelling
a JS array hole / undefined entry. -/
structure ListCtx : Type where
  kind : LKind
  depth : Nat
  olCounter : List (Option Nat)
deriving DecidableEq, Repr

/-- The counter array of an optional context (empty when no context). -/
def ctxArr (ctx : Option ListCtx) : List (Option Nat) :=
  match ctx with
  | some c => c.olCounter
  | none => []

/-- JS read `arr[i] || 1`: a missing, hole or zero entry reads as 1. -/
def readCounter (arr : List (Option Nat)) (i : Nat) : Nat :=
  match arr.get? i with
  | some (some v) => if v = 0 then 1 else v
  | _ => 1

/-- JS write `arr[i] = v`: in-bounds writes update the cell, out-of-bounds
writes extend the array, padding skipped indices with holes. -/
def writeCounter : List (Option Nat) → Nat → Nat → List (Option Nat)
  | [], 0, v => [some v]
  | [], i + 1, v => none :: writeCounter [] i v
  | _ :: t, 0, v => some v :: t
  | h :: t, i + 1, v => h :: writeCounter t i v

/-- `'  '.repeat(depth - 1)`: two spaces per nesting depth below one. -/
def spacesIndent (depth : Nat) : List Char := List.replicate (2 * (depth - 1)) ' '

mutual

/-- `nodeToMText` from modelConverter.ts. Returns the produced MText
fragment together with the caller's counter array as it stands after the
call (JS mutates the shared array in place; here the updated array is
returned so `seqToMText` can thread it to later siblings). Only the
`li` branch ever changes the array. -/
def nodeToMText (node : MNode) (ctx : Option ListCtx) : List Char × List (Option Nat) :=
  match node with
  | .mk ntype text children fmt stack para =>
    let paraPart : List Char :=
      match para with
      | some p => paragraphCommand p
      | none => []
    match stack with
    | some st => (paraPart ++ stackCommand st.numerator st.denominator st.divider, ctxArr ctx)
    | none =>
      if ntype = .text ∧ jsOptStrTruthy text then
        (paraPart ++ applyFormatting (encodeMText (text.getD [])) fmt, ctxArr ctx)
      else if ntype = .ol ∨ ntype = .ul then
        let newDepth := (match ctx with | some c => c.depth | none => 0) + 1
        let arr := ctxArr ctx
        let arr := if ntype = .ol ∧ arr.length < newDepth then arr ++ [some 1] else arr
        let kind : LKind := if ntype = .ol then .ol else .ul
        let inner : List Char :=
          match children with
          | some cs => (seqToMText cs (some ⟨kind, newDepth, arr⟩)).1
          | none => []
        (paraPart ++ inner, ctxArr ctx)
      else if ntype = .li then
        let indentPart : List Char :=
          match ctx with
          | some c => spacesIndent c.depth
          | none => []
        let marker : List Char :=
          match ctx with
          | some c =>
            match c.kind with
            | .ul => ['*', ' ']
            | .ol => natStr (readCounter c.olCounter (c.depth - 1)) ++ ['.', ' ']
          | none => []
        let arrAfter : List (Option Nat) :=
          match ctx with
          | some c =>
            match c.kind with
            | .ol => writeCounter c.olCounter (c.depth - 1)
                (readCounter c.olCounter (c.depth - 1) + 1)
            | .ul => c.olCounter
          | none => []
        let itemContent : List Char :=
          match children with
          | some cs => (seqToMText cs none).1
          | none => []
        (paraPart ++ '\\' :: 'P' :: indentPart ++ marker ++ itemContent, arrAfter)
      else
        match children with
        | some cs =>
          let inner := (seqToMText cs none).1
          let tail : List Char := if ntype = .paragraph then ['\\', 'P'] else []
          (paraPart ++ inner ++ tail, ctxArr ctx)
        | none => (paraPart, ctxArr ctx)

/-- Serializes a sequence of sibling nodes, threading the shared counter
array (JS passes every sibling a context holding the same mutable array). -/
def seqToMText (nodes : List MNode) (ctx : Option ListCtx) : List Char × List (Option Nat) :=
  match nodes with
  | [] => ([], ctxArr ctx)
  | n :: rest =>
    let r := nodeToMText n ctx
    let ctx2 : Option ListCtx :=
      match ctx with
      | some c => some { c with olCounter := r.2 }
      | none => none
    let r2 := seqToMText rest ctx2
    (r.1 ++ r2.1, r2.2)

end

/-- Serialization of children with no list context (`nodeToMText(child)` /
`nodeToMText(child, undefined)` in the source). -/
def seqNoCtx (nodes : List MNode) : List Char := (seqToMText nodes none).1

/-- `convert` from modelConverter.ts: each top-level node is serialized with
no list context and the fragments are concatenated. -/
def convert (nodes : List MNode) : List Char := seqNoCtx nodes

/-- Whitespace characters recognized by the JS string functions used here
(space, tab, newline, carriage return, vertical tab, form feed). -/
def isJsSpace (c : Char) : Bool :=
  c = ' ' || c = '\t' || c = '\n' || c = '\r' || c = Char.ofNat 11 || c = Char.ofNat 12

/-- Rational of an integer built through `mkRat` (the ambient `Rat`
arithmetic operations are irreducible to the kernel; these wrappers keep
every computation kernel-evaluable). -/
def rOfInt (i : Int) : Rat := mkRat i 1

/-- Reducible rational addition. -/
def rAdd (a b : Rat) : Rat := mkRat (a.num * (b.den : Int) + b.num * (a.den : Int)) (a.den * b.den)

/-- Reducible rational multiplication. -/
def rMul (a b : Rat) : Rat := mkRat (a.num * b.num) (a.den * b.den)

/-- Reducible rational negation. -/
def rNeg (a : Rat) : Rat := mkRat (-a.num) a.den

/-- Reducible rational division (only applied to nonzero divisors here). -/
def rDiv (a b : Rat) : Rat :=
  if b.num < 0 then mkRat (-(a.num * (b.den : Int))) (a.den * (-b.num).toNat)
  else mkRat (a.num * (b.den : Int)) (a.den * b.num.toNat)

/-- Numeric value of a decimal digit character. -/
def digVal (c : Char) : Nat := c.toNat - 48

/-- Value of a nonempty decimal digit string. -/
def natOfDigits (ds : List Char) : Nat := ds.foldl (fun a c => a * 10 + digVal c) 0

/-- JS `String#trim` (over the whitespace set above). -/
def trimChars (s : List Char) : List Char :=
  ((s.dropWhile isJsSpace).reverse.dropWhile isJsSpace).reverse

/-- Modelled JS `parseFloat`: skip leading whitespace, optional sign, then
the longest decimal-literal suffix `digits [. digits] [e sign digits]` or
`. digits [e ...]`; `none` (NaN) when no numeric literal starts the string.
The `Infinity` literal is not modelled (never produced by stylesheets the
converter consumes). -/
def jsParseFloat (s : List Char) : JsNum :=
  let s := s.dropWhile isJsSpace
  let neg : Bool := s.head? = some '-'
  let s := match s with | '-' :: t => t | '+' :: t => t | _ => s
  let ip := s.takeWhile Char.isDigit
  let s1 := s.dropWhile Char.isDigit
  let signed : Rat → Rat := fun q => if neg then rNeg q else q
  let expPart : List Char → Rat → Rat := fun rest base =>
    match rest with
    | c :: t =>
      if c = 'e' || c = 'E' then
        let eneg := t.head? = some '-'
        let t := match t with | '-' :: u => u | '+' :: u => u | _ => t
        let ed := t.takeWhile Char.isDigit
        if ed = [] then base
        else if eneg then rDiv base (rOfInt ((10 ^ natOfDigits ed : Nat) : Int))
        else rMul base (rOfInt ((10 ^ natOfDigits ed : Nat) : Int))
      else base
    | [] => base
  if ip = [] then
    match s1 with
    | '.' :: t =>
      let fp := t.takeWhile Char.isDigit
      if fp = [] then none
      else some (signed (expPart (t.dropWhile Char.isDigit)
        (mkRat (natOfDigits fp : Int) (10 ^ fp.length))))
    | _ => none
  else
    match s1 with
    | '.' :: t =>
      let fp := t.takeWhile Char.isDigit
      some (signed (expPart (t.dropWhile Char.isDigit)
        (rAdd (rOfInt (natOfDigits ip : Int)) (mkRat (natOfDigits fp : Int) (10 ^ fp.length)))))
    | _ => some (signed (expPart s1 (rOfInt (natOfDigits ip : Int))))

/-- NaN-propagating division of a JS number by a constant. -/
def jsDivC (v : JsNum) (k : Rat) : JsNum := v.map (fun q => rDiv q k)

/-- NaN-propagating multiplication of a JS number by a constant. -/
def jsMulC (v : JsNum) (k : Rat) : JsNum := v.map (fun q => rMul q k)

/-- `parseCssValue` from htmlConverter.ts: empty input gives null; an
`em`/`px`/`pt` suffix selects a unit conversion of `parseFloat` of the
whole trimmed value (possibly NaN); otherwise the bare `parseFloat` value,
with NaN mapped to null. The JS literal `1.33` is modelled as the exact
rational 133/100. -/
def parseCssValue (value : List Char) : Option JsNum :=
  if value = [] then none
  else
    let t := trimChars value
    if (("em").data).isSuffixOf t then some (jsParseFloat t)
    else if (("px").data).isSuffixOf t then some (jsDivC (jsParseFloat t) 16)
    else if (("pt").data).isSuffixOf t then
      some (jsDivC (jsMulC (jsParseFloat t) (mkRat 133 100)) 16)
    else
      match jsParseFloat t with
      | some q => some (some q)
      | none => none

/-- Case-insensitive strip of a literal pattern from the front of the
input, returning the remainder on success. -/
def stripCI : List Char → List Char → Option (List Char)
  | [], s => some s
  | _ :: _, [] => none
  | p :: ps, c :: cs => if p.toLower = c.toLower then stripCI ps cs else none

/-- Case-sensitive strip of a literal pattern from the front of the input. -/
def stripExact : List Char → List Char → Option (List Char)
  | [], s => some s
  | _ :: _, [] => none
  | p :: ps, c :: cs => if p = c then stripExact ps cs else none

/-- One attempt of the `prop\s*:\s*([^;]+)` regex (case-insensitive) at the
current position: the property name, optional whitespace, a colon, then a
nonempty run up to the next `;`. The capture keeps leading whitespace the
regex would assign to `\s*`; every consumer trims it away, so the value is
unchanged. -/
def matchPropAt (prop s : List Char) : Option (List Char) :=
  match stripCI prop s with
  | some r1 =>
    match r1.dropWhile isJsSpace with
    | ':' :: r3 =>
      let cap := r3.takeWhile (· ≠ ';')
      if cap = [] then none else some cap
    | _ => none
  | none => none

/-- First match of the property regex anywhere in the style string
(JS `String#match` scans left to right). -/
def scanProp (prop : List Char) : List Char → Option (List Char)
  | [] => none
  | c :: rest =>
    match matchPropAt prop (c :: rest) with
    | some cap => some cap
    | none => scanProp prop rest

/-- `extractCssProperty` from htmlConverter.ts. -/
def extractCssProperty (styleAttr prop : List Char) : Option JsNum :=
  match scanProp prop styleAttr with
  | some cap => parseCssValue cap
  | none => none

/-- JS `String#includes`: the needle occurs contiguously in the haystack. -/
def jsIncludes (needle : List Char) : List Char → Bool
  | [] => needle.isEmpty
  | c :: rest => needle.isPrefixOf (c :: rest) || jsIncludes needle rest

/-- Splits a string into its maximal runs of decimal digits
(JS `str.match(/\d+/g)`), accumulating the current run in reverse. -/
def digitRunsAux (cur : List Char) : List Char → List (List Char)
  | [] => if cur = [] then [] else [cur.reverse]
  | c :: rest =>
    if c.isDigit then digitRunsAux (c :: cur) rest
    else if cur = [] then digitRunsAux [] rest
    else cur.reverse :: digitRunsAux [] rest

/-- All maximal digit runs of a string. -/
def digitRuns (s : List Char) : List (List Char) := digitRunsAux [] s

/-- A nonnegative integer reduced to a signed 32-bit value (JS ToInt32). -/
def toSigned32 (n : Nat) : Int :=
  let m := n % 4294967296
  if m < 2147483648 then (m : Int) else (m : Int) - 4294967296

/-- The low 32 unsigned bits of an integer. -/
def low32 (i : Int) : Nat := (i % 4294967296).toNat

/-- JS `a << k` for an integer operand. -/
def jsShl (a : Int) (k : Nat) : Int := toSigned32 (low32 (a * 2 ^ k))

/-- JS `a | b` for integer operands. -/
def jsOr (a b : Int) : Int := toSigned32 (Nat.lor (low32 a) (low32 b))

/-- The `(r << 16) | (g << 8) | b` packing of `extractFormatting`; a missing
match entry is `undefined`, which the bitwise operators coerce to 0. -/
def rgbPack (color : List Char) : Int :=
  let runs := (digitRuns color).map natOfDigits
  let r := (runs.get? 0).getD 0
  let g := (runs.get? 1).getD 0
  let b := (runs.get? 2).getD 0
  jsOr (jsOr (jsShl (r : Int) 16) (jsShl (g : Int) 8)) (toSigned32 b)

/-- Hex digit value. -/
def hexVal (c : Char) : Option Nat :=
  if c.isDigit then some (c.toNat - 48)
  else if 'a' ≤ c ∧ c ≤ 'f' then some (c.toNat - 87)
  else if 'A' ≤ c ∧ c ≤ 'F' then some (c.toNat - 55)
  else none

/-- Modelled JS `parseInt(s, 16)`: skip whitespace, optional sign, optional
`0x` marker, then the longest hex-digit run; NaN when the run is empty. -/
def parseIntHex (s : List Char) : JsNum :=
  let s := s.dropWhile isJsSpace
  let neg : Bool := s.head? = some '-'
  let s := match s with | '-' :: t => t | '+' :: t => t | _ => s
  let s := match stripExact (("0x").data) s with
    | some t => t
    | none => match stripExact (("0X").data) s with | some t => t | none => s
  let ds := s.takeWhile (fun c => (hexVal c).isSome)
  if ds = [] then none
  else
    let v := rOfInt ((ds.foldl (fun a c => a * 16 + (hexVal c).getD 0) 0 : Nat) : Int)
    some (if neg then rNeg v else v)

/-- Quote stripping, first comma-separated entry, and trim applied to a
CSS `font-family` value. -/
def cleanFontFamily (s : List Char) : List Char :=
  trimChars ((s.filter (fun c => c ≠ '\'' && c ≠ '"')).takeWhile (· ≠ ','))

/-- One attempt of the `scaleX\(([^)]+)\)` regex at the current position. -/
def matchScaleXAt (s : List Char) : Option (List Char) :=
  match stripExact (("scaleX(").data) s with
  | some r1 =>
    let cap := r1.takeWhile (· ≠ ')')
    if cap ≠ [] ∧ (r1.drop cap.length).head? = some ')' then some cap else none
  | none => none

/-- First successful `scaleX(...)` match in a transform string. -/
def scanScaleX : List Char → Option (List Char)
  | [] => none
  | c :: rest =>
    match matchScaleXAt (c :: rest) with
    | some cap => some cap
    | none => scanScaleX rest

/-- The inline-style fields `extractFormatting`/`extractParagraphProperties`
consult; the CSSOM yields the empty string for an absent declaration. -/
structure ElStyle : Type where
  textDecoration : List Char := []
  color : List Char := []
  fontFamily : List Char := []
  letterSpacing : List Char := []
  transform : List Char := []
  textAlign : List Char := []
  textIndent : List Char := []
  marginLeft : List Char := []
  marginRight : List Char := []
deriving DecidableEq, Repr

/-- The slice of a DOM element the two extraction functions read: tag name,
inline style map, class attribute, and the raw `align`/`style` attributes
(`getAttribute` yields null for an absent attribute). -/
structure Elem : Type where
  tagName : List Char
  style : ElStyle := {}
  className : List Char := []
  attrAlign : Option (List Char) := none
  attrStyle : Option (List Char) := none
deriving DecidableEq, Repr

/-- Statement of `extractFormatting` setting `bold` from the B/STRONG tag. -/
def fsBoldTag (el : Elem) (f : Fmt) : Fmt :=
  if el.tagName = ("B").data ∨ el.tagName = ("STRONG").data
  then { f with bold := some true } else f

/-- Statement setting `italic` from the I/EM tag. -/
def fsItalicTag (el : Elem) (f : Fmt) : Fmt :=
  if el.tagName = ("I").data ∨ el.tagName = ("EM").data
  then { f with italic := some true } else f

/-- Statement setting `underline` from the U tag or the text-decoration. -/
def fsUnderline (el : Elem) (f : Fmt) : Fmt :=
  if el.tagName = ("U").data ∨ jsIncludes (("underline").data) el.style.textDecoration
  then { f with underline := some true } else f

/-- Statement setting `overline` from the text-decoration. -/
def fsOverline (el : Elem) (f : Fmt) : Fmt :=
  if jsIncludes (("overline").data) el.style.textDecoration
  then { f with overline := some true } else f

/-- Statement setting `strikethrough` from strike-family tags or the
text-decoration. -/
def fsStrike (el : Elem) (f : Fmt) : Fmt :=
  if el.tagName = ("S").data ∨ el.tagName = ("STRIKE").data ∨
      el.tagName = ("DEL").data ∨ jsIncludes (("line-through").data) el.style.textDecoration
  then { f with strikethrough := some true } else f

/-- Statement setting `subscript` from the SUB tag. -/
def fsSub (el : Elem) (f : Fmt) : Fmt :=
  if el.tagName = ("SUB").data then { f with subscript := some true } else f

/-- Statement setting `superscript` from the SUP tag. -/
def fsSup (el : Elem) (f : Fmt) : Fmt :=
  if el.tagName = ("SUP").data then { f with superscript := some true } else f

/-- Statement setting `rgbColor` from an inline `rgb(...)` or `#hex` color. -/
def fsColor (el : Elem) (f : Fmt) : Fmt :=
  if el.style.color ≠ [] then
    (if (("rgb").data).isPrefixOf el.style.color then
      { f with rgbColor := some (some (rOfInt (rgbPack el.style.color))) }
    else if el.style.color.head? = some '#' then
      { f with rgbColor := some (parseIntHex (el.style.color.drop 1)) }
    else f)
  else f

/-- Statement setting `font` from an inline font-family. -/
def fsFont (el : Elem) (f : Fmt) : Fmt :=
  if el.style.fontFamily ≠ []
  then { f with font := some (cleanFontFamily el.style.fontFamily) } else f

/-- Statement setting `tracking` from an inline letter-spacing (a null
parse leaves the field untouched; a NaN parse is still assigned). -/
def fsTracking (el : Elem) (f : Fmt) : Fmt :=
  if el.style.letterSpacing ≠ [] then
    (match parseCssValue el.style.letterSpacing with
    | some v => { f with tracking := some v }
    | none => f)
  else f

/-- Statement defaulting `tracking` to 10 for the marker class when the
field is still falsy. -/
def fsTrackingClass (el : Elem) (f : Fmt) : Fmt :=
  if jsIncludes (("letterspacing").data) el.className then
    (if jsOptNumTruthy f.tracking then f else { f with tracking := some (some 10) })
  else f

/-- Statement setting `width` from an inline `transform: scaleX(v)`. -/
def fsWidth (el : Elem) (f : Fmt) : Fmt :=
  if el.style.transform ≠ [] then
    (match scanScaleX el.style.transform with
    | some cap =>
      match jsParseFloat cap with
      | some v => { f with width := some (some v) }
      | none => f
    | none => f)
  else f

/-- Statement defaulting `width` to 1 for the marker class when the field
is still falsy. -/
def fsWidthClass (el : Elem) (f : Fmt) : Fmt :=
  if jsIncludes (("letterwidth").data) el.className then
    (if jsOptNumTruthy f.width then f else { f with width := some (some 1) })
  else f

/-- `extractFormatting` from htmlConverter.ts: the statements above applied
in source order to an initially empty delta. -/
def extractFormatting (el : Elem) : Fmt :=
  fsWidthClass el (fsWidth el (fsTrackingClass el (fsTracking el (fsFont el
    (fsColor el (fsSup el (fsSub el (fsStrike el (fsOverline el (fsUnderline el
      (fsItalicTag el (fsBoldTag el {}))))))))))))

/-- The four alignment keywords of the `text-align` regex alternation. -/
inductive RawAlign : Type where
  | left | right | center | justify
deriving DecidableEq, Repr

/-- One attempt of the case-insensitive
`text-align\s*:\s*(left|right|center|justify)` regex at the current
position; alternatives are tried in the regex's order. -/
def matchTextAlignAt (s : List Char) : Option RawAlign :=
  match stripCI (("text-align").data) s with
  | some r1 =>
    match r1.dropWhile isJsSpace with
    | ':' :: r3 =>
      let r4 := r3.dropWhile isJsSpace
      if (stripCI (("left").data) r4).isSome then some .left
      else if (stripCI (("right").data) r4).isSome then some .right
      else if (stripCI (("center").data) r4).isSome then some .center
      else if (stripCI (("justify").data) r4).isSome then some .justify
      else none
    | _ => none
  | none => none

/-- First match of the `text-align` regex in a raw style string. -/
def scanTextAlign : List Char → Option RawAlign
  | [] => none
  | c :: rest =>
    match matchTextAlignAt (c :: rest) with
    | some a => some a
    | none => scanTextAlign rest

/-- The lower-cased capture mapped to a model alignment
(`justify` becomes `justified`). -/
def rawToAlign (a : RawAlign) : PAlign :=
  match a with
  | .left => .left
  | .right => .right
  | .center => .center
  | .justify => .justified

/-- First alignment source: the structural `align` attribute (truthy and
recognized; `justify` maps to `justified`). -/
def alignFromAttr (el : Elem) (a : Option PAlign) : Option PAlign :=
  match el.attrAlign with
  | some v =>
    if v ≠ [] then
      (if v = ("left").data then some PAlign.left
      else if v = ("right").data then some PAlign.right
      else if v = ("center").data then some PAlign.center
      else if v = ("justify").data then some PAlign.justified
      else a)
    else a
  | none => a

/-- Second alignment source: the inline `textAlign` style property. -/
def alignFromStyle (el : Elem) (a : Option PAlign) : Option PAlign :=
  if el.style.textAlign ≠ [] then
    (if el.style.textAlign = ("left").data then some PAlign.left
    else if el.style.textAlign = ("right").data then some PAlign.right
    else if el.style.textAlign = ("center").data then some PAlign.center
    else if el.style.textAlign = ("justify").data then some PAlign.justified
    else a)
  else a

/-- Third alignment source, checked last: the regex over the raw `style`
attribute. -/
def alignFromRaw (el : Elem) (a : Option PAlign) : Option PAlign :=
  match el.attrStyle with
  | some st =>
    if st ≠ [] then
      (match scanTextAlign st with
      | some raw => some (rawToAlign raw)
      | none => a)
    else a
  | none => a

/-- The alignment resolved from the three sources in source order. -/
def resolvedAlign (el : Elem) : Option PAlign :=
  alignFromRaw el (alignFromStyle el (alignFromAttr el none))

/-- Statement attaching the resolved alignment when truthy. -/
def psAlign (el : Elem) (p : ParaProps) : ParaProps :=
  match resolvedAlign el with
  | some a => { p with align := some a }
  | none => p

/-- Statement setting `indent` from the inline text-indent. -/
def psIndent (el : Elem) (p : ParaProps) : ParaProps :=
  if el.style.textIndent ≠ [] then
    (match parseCssValue el.style.textIndent with
    | some v => { p with indent := some v }
    | none => p)
  else p

/-- Statement setting `left` from the inline margin-left. -/
def psLeft (el : Elem) (p : ParaProps) : ParaProps :=
  if el.style.marginLeft ≠ [] then
    (match parseCssValue el.style.marginLeft with
    | some v => { p with left := some v }
    | none => p)
  else p

/-- Statement setting `right` from the inline margin-right. -/
def psRight (el : Elem) (p : ParaProps) : ParaProps :=
  if el.style.marginRight ≠ [] then
    (match parseCssValue el.style.marginRight with
    | some v => { p with right := some v }
    | none => p)
  else p

/-- Raw-attribute fallback for `indent`, guarded by falsiness of the field. -/
def fbIndent (st : List Char) (p : ParaProps) : ParaProps :=
  if jsOptNumTruthy p.indent then p
  else match extractCssProperty st (("text-indent").data) with
    | some v => { p with indent := some v }
    | none => p

/-- Raw-attribute fallback for `left`, guarded by falsiness of the field. -/
def fbLeft (st : List Char) (p : ParaProps) : ParaProps :=
  if jsOptNumTruthy p.left then p
  else match extractCssProperty st (("margin-left").data) with
    | some v => { p with left := some v }
    | none => p

/-- Raw-attribute fallback for `right`, guarded by falsiness of the field. -/
def fbRight (st : List Char) (p : ParaProps) : ParaProps :=
  if jsOptNumTruthy p.right then p
  else match extractCssProperty st (("margin-right").data) with
    | some v => { p with right := some v }
    | none => p

/-- The raw-style-attribute fallback block of
`extractParagraphProperties` (runs only for a truthy style attribute). -/
def psAttrFallback (el : Elem) (p : ParaProps) : ParaProps :=
  match el.attrStyle with
  | some st => if st ≠ [] then fbRight st (fbLeft st (fbIndent st p)) else p
  | none => p

/-- `extractParagraphProperties` from htmlConverter.ts: the statements
above applied in source order to an initially empty record. -/
def extractParagraphProperties (el : Elem) : ParaProps :=
  psAttrFallback el (psRight el (psLeft el (psIndent el (psAlign el {}))))

/-- `parseBrNode` from htmlConverter.ts: a bare `br` node with no other
fields. -/
def parseBrNode : List MNode := [MNode.mk .br none none {} none none]

/-! Claim-side definitions: each of the following is written from the
wording of a spec claim (or its minimal amendment) and is compared against
the source-derived definitions above by the theorems below. -/

/-- Claim wording (C1, amended): a font token is wanted exactly when the
first defined one among the font family and the character-level bold and
italic flags is truthy — a set, nonempty family; otherwise a set bold flag
that is true; otherwise a set italic flag that is true. -/
def firstDefinedTruthy (f : Fmt) : Bool :=
  if f.font.isSome then jsOptStrTruthy f.font
  else if f.bold.isSome then jsOptBoolTruthy f.bold
  else jsOptBoolTruthy f.italic

/-- Claim wording (C1): the font-level bold bit falls back to the
character-level bold flag when the font-level one is absent. -/
def effFontBold (f : Fmt) : Bool :=
  match f.fontBold with
  | some b => b
  | none => jsOptBoolTruthy f.bold

/-- Claim wording (C1): the font-level italic bit falls back to the
character-level italic flag when the font-level one is absent. -/
def effFontItalic (f : Fmt) : Bool :=
  match f.fontItalic with
  | some b => b
  | none => jsOptBoolTruthy f.italic

/-- Claim wording (C1, amended), expressed as a normal form: when a font
token is wanted the family is forced to its effective value (the set family
or the `Arial` default) and the font-level bits to their effective values;
when no token is wanted all font-related fields are cleared. A node
formats identically to its normal form. -/
def normalizeFont (f : Fmt) : Fmt :=
  if firstDefinedTruthy f then
    { f with font := some (f.font.getD (("Arial").data)),
             fontBold := some (effFontBold f), fontItalic := some (effFontItalic f),
             bold := none, italic := none }
  else
    { f with font := none, bold := none, italic := none,
             fontBold := none, fontItalic := none }

/-- Claim wording (C2): the serialized content of one list item (its
children, serialized without list context). -/
def liContent (n : MNode) : List Char :=
  match n.children with
  | some cs => seqNoCtx cs
  | none => []

/-- Claim wording (C2): the expected rendering of the items of one ordered
list container at a given depth — a line break, the indent for the depth,
then consecutive numbers starting from `startNum`. -/
def numItems (depth startNum : Nat) : List MNode → List Char
  | [] => []
  | n :: rest =>
    '\\' :: 'P' :: spacesIndent depth ++ natStr startNum ++ '.' :: ' ' :: liContent n
      ++ numItems depth (startNum + 1) rest

/-- Comma-join of a list of strings (claim wording C6: fields
comma-separated). -/
def joinStrsComma : List (List Char) → List Char
  | [] => []
  | [x] => x
  | x :: rest => x ++ ',' :: joinStrsComma rest

/-- Claim wording (C6, amended): the paragraph command lists its fields in
the fixed order indent, left, right, alignment, tabs, comma-separated —
except that the defaulted alignment `ql` (emitted when the align field is
unset) is concatenated with a following tab-stops field without a comma. -/
def specParagraphCommand (p : ParaProps) : List Char :=
  let core : List (List Char) :=
    (match p.indent with | some v => ['i' :: jsNumStr v] | none => []) ++
    (match p.left with | some v => ['l' :: jsNumStr v] | none => []) ++
    (match p.right with | some v => ['r' :: jsNumStr v] | none => [])
  let tabsField : Option (List Char) :=
    match p.tabs with
    | some ts => if ts ≠ [] then some ('t' :: joinNumsComma ts) else none
    | none => none
  let tailF : List (List Char) :=
    match p.align, tabsField with
    | some a, some tf => [alignCode a, tf]
    | some a, none => [alignCode a]
    | none, some tf => [['q', 'l'] ++ tf]
    | none, none => [['q', 'l']]
  '\\' :: 'p' :: joinStrsComma (core ++ tailF) ++ [';']

/-- Claim wording (C10): numeric formatting fields equal to zero are
dropped (color, height, width factor, tracking, slant). -/
def dropZeroNumerics (f : Fmt) : Fmt :=
  { f with
    color := if f.color = some (some 0) then none else f.color,
    height := if f.height = some (some 0) then none else f.height,
    width := if f.width = some (some 0) then none else f.width,
    tracking := if f.tracking = some (some 0) then none else f.tracking,
    slant := if f.slant = some (some 0) then none else f.slant }

/-! Helper lemmas. -/

/-- A global two-character replacement whose first position never matches
leaves the string unchanged. -/
theorem replacePair_skip (m1 m2 : Char → Bool) (rep : List Char) :
    ∀ s : List Char, (∀ c ∈ s, m1 c = false) → replacePair m1 m2 rep s = s := by
  intro s
  induction s with
  | nil => intro _; rfl
  | cons c rest ih =>
    intro h
    cases rest with
    | nil => rfl
    | cons c2 r2 =>
      have hc : m1 c = false := h c (by simp)
      have step : replacePair m1 m2 rep (c :: c2 :: r2)
          = c :: replacePair m1 m2 rep (c2 :: r2) := by
        simp [replacePair, hc]
      rw [step]
      exact congrArg (c :: ·) (ih fun d hd => h d (by simp [hd]))

/-- A global three-character replacement whose first position never matches
leaves the string unchanged. -/
theorem replaceTriple_skip (m1 m2 m3 : Char → Bool) (rep : List Char) :
    ∀ s : List Char, (∀ c ∈ s, m1 c = false) → replaceTriple m1 m2 m3 rep s = s := by
  intro s
  induction s with
  | nil => intro _; rfl
  | cons c rest ih =>
    intro h
    match rest with
    | [] => rfl
    | [c2] => rfl
    | c2 :: c3 :: r3 =>
      have hc : m1 c = false := h c (by simp)
      have step : replaceTriple m1 m2 m3 rep (c :: c2 :: c3 :: r3)
          = c :: replaceTriple m1 m2 m3 rep (c2 :: c3 :: r3) := by
        simp [replaceTriple, hc]
      rw [step]
      exact congrArg (c :: ·) (ih fun d hd => h d (by simp [hd]))

/-- A string free of carets and percent signs passes through `encodeMText`
unchanged. -/
theorem encodeMText_id (s : List Char) (hc : '^' ∉ s) (hp : '%' ∉ s) :
    encodeMText s = s := by
  have hcf : ∀ c ∈ s, (c = '^' : Bool) = false := by
    intro c hcs
    simp only [decide_eq_false_iff_not]
    exact fun e => hc (e ▸ hcs)
  have hpf : ∀ c ∈ s, (c = '%' : Bool) = false := by
    intro c hcs
    simp only [decide_eq_false_iff_not]
    exact fun e => hp (e ▸ hcs)
  simp only [encodeMText]
  rw [replacePair_skip _ _ _ s hcf]
  rw [replacePair_skip _ _ _ s hcf]
  rw [replacePair_skip _ _ _ s hcf]
  rw [replacePair_skip _ _ _ s hcf]
  rw [replaceTriple_skip _ _ _ _ s hpf]
  rw [replaceTriple_skip _ _ _ _ s hpf]
  rw [replaceTriple_skip _ _ _ _ s hpf]

/-! Claim theorems. -/

/-- C5: a text leaf with no formatting fields serializes to exactly the
escape-substituted text (no brace group, no command tokens), and on text
free of caret and percent characters the transform is the identity. -/
theorem C5_plain_text_escape :
    (∀ (s : List Char) (ctx : Option ListCtx),
      nodeToMText (MNode.mk .text (some s) none noFmt none none) ctx
        = (encodeMText s, ctxArr ctx))
    ∧ (∀ s : List Char, '^' ∉ s → '%' ∉ s → encodeMText s = s) := by
  constructor
  · intro s ctx
    cases s with
    | nil => rfl
    | cons c t => rfl
  · exact encodeMText_id

/-- C5 witness: concrete instances of both parts. -/
theorem C5_plain_text_escape_witness :
    nodeToMText (MNode.mk .text (some (("a^ b").data)) none noFmt none none) none
      = (("a^b").data, [])
    ∧ ('^' ∉ (("ab").data) ∧ '%' ∉ (("ab").data) ∧ encodeMText (("ab").data) = ("ab").data) :=
  ⟨(C5_plain_text_escape.1 (("a^ b").data) none).trans (by decide),
   ⟨by decide, by decide,
    C5_plain_text_escape.2 (("ab").data) (by decide) (by decide)⟩⟩

/-- C9: the parser's line-break node is a bare `br` node, and every `br`
node with no text, children, stack or paragraph fields serializes to the
empty string whatever its formatting fields and list context. -/
theorem C9_br_no_output :
    parseBrNode = [MNode.mk .br none none noFmt none none]
    ∧ ∀ (fmt : Fmt) (ctx : Option ListCtx),
        nodeToMText (MNode.mk .br none none fmt none none) ctx = ([], ctxArr ctx) :=
  ⟨rfl, fun _ _ => rfl⟩

/-- C7: a node with the stack field set serializes to its (optional)
paragraph command followed by the stack command alone — its text and
children contribute nothing — and a divider that is absent or the caret
glyph always yields a separating `^ ` before the denominator. -/
theorem C7_stack_command (n : MNode) (ctx : Option ListCtx) (st : StackInfo)
    (h : n.stack = some st) :
    nodeToMText n ctx
      = ((match n.para with | some p => paragraphCommand p | none => []) ++
          stackCommand st.numerator st.denominator st.divider, ctxArr ctx)
    ∧ ((st.divider = none ∨ st.divider = some ['^']) →
        stackCommand st.numerator st.denominator st.divider
          = '\\' :: 'S' :: st.numerator ++ '^' :: ' ' :: st.denominator ++ [';']) := by
  rcases n with ⟨t, tx, ch, f, sk, pa⟩
  simp only [MNode.stack] at h
  subst h
  constructor
  · rfl
  · rintro (hd | hd) <;> rw [hd] <;> simp [stackCommand]

/-- C7 witness: a stack node with text, children and an explicit caret
divider; the children and text contribute nothing and the caret divider
gains its separating space. -/
theorem C7_stack_command_witness :
    nodeToMText (MNode.mk .text (some (("zz").data))
        (some [MNode.mk .br none none noFmt none none]) noFmt
        (some ⟨("12").data, ("34").data, some ['^']⟩) none) none
      = (("\\S12^ 34;").data, [])
    ∧ stackCommand (("12").data) (("34").data) (some ['^'])
      = '\\' :: 'S' :: ("12").data ++ '^' :: ' ' :: ("34").data ++ [';'] := by
  have h := C7_stack_command
    (MNode.mk .text (some (("zz").data))
      (some [MNode.mk .br none none noFmt none none]) noFmt
      (some ⟨("12").data, ("34").data, some ['^']⟩) none) none
    ⟨("12").data, ("34").data, some ['^']⟩ rfl
  exact ⟨h.1.trans (by decide), h.2 (Or.inr rfl)⟩

/-- C8: serialization is total on the embedded model by construction, and a
node whose optional fields are all absent (other than a list item, whose
line-break token comes from its type) contributes no output, while a node
of unrecognized generic type passes its children through with no token of
its own. -/
theorem C8_no_output_when_absent :
    (∀ (n : MNode) (ctx : Option ListCtx),
      n.text = none → n.children = none → n.stack = none → n.para = none →
      n.ntype ≠ .li → nodeToMText n ctx = ([], ctxArr ctx))
    ∧ (∀ (name : List Char) (cs : List MNode) (fmt : Fmt) (ctx : Option ListCtx),
      nodeToMText (MNode.mk (.generic name) none (some cs) fmt none none) ctx
        = (seqNoCtx cs, ctxArr ctx)) := by
  constructor
  · intro n ctx h1 h2 h3 h4 h5
    rcases n with ⟨t, tx, ch, f, sk, pa⟩
    simp only [MNode.text] at h1
    simp only [MNode.children] at h2
    simp only [MNode.stack] at h3
    simp only [MNode.para] at h4
    simp only [MNode.ntype] at h5
    subst h1; subst h2; subst h3; subst h4
    cases t with
    | li => exact absurd rfl h5
    | text => rfl
    | br => rfl
    | ol => rfl
    | ul => rfl
    | paragraph => rfl
    | generic name => rfl
  · intro name cs fmt ctx
    simp [nodeToMText, seqNoCtx]

/-- C8 witness: a childless generic node emits nothing; a generic container
passes its children through. -/
theorem C8_no_output_when_absent_witness :
    nodeToMText (MNode.mk (.generic (("div").data)) none none noFmt none none) none = ([], [])
    ∧ nodeToMText (MNode.mk (.generic (("div").data)) none
        (some [MNode.mk .text (some (("hi").data)) none noFmt none none]) noFmt none none) none
      = (("hi").data, []) :=
  ⟨C8_no_output_when_absent.1
      (MNode.mk (.generic (("div").data)) none none noFmt none none) none
      rfl rfl rfl rfl (by decide),
   (C8_no_output_when_absent.2 (("div").data)
      [MNode.mk .text (some (("hi").data)) none noFmt none none] noFmt none).trans
    (by decide)⟩

/-- C10: the serializer treats falsy field values like absent ones — a text
node with empty text emits nothing even when formatting fields are set, and
zero-valued numeric formatting fields (color, height, width, tracking,
slant) emit no command token (formatting is unchanged when they are
dropped). -/
theorem C10_falsy_fields_like_absent :
    (∀ (fmt : Fmt) (ctx : Option ListCtx),
      nodeToMText (MNode.mk .text (some []) none fmt none none) ctx = ([], ctxArr ctx))
    ∧ (∀ (s : List Char) (f : Fmt),
      applyFormatting s (dropZeroNumerics f) = applyFormatting s f) := by
  constructor
  · intro fmt ctx; rfl
  · intro s f
    rcases f with ⟨b, i, u, o, sk, sub, sup, c, rgb, fo, fb, fi, hh, w, tr, sl⟩
    by_cases hc : c = some (some 0) <;>
      by_cases hhh : hh = some (some 0) <;>
        by_cases hw : w = some (some 0) <;>
          by_cases htr : tr = some (some 0) <;>
            by_cases hsl : sl = some (some 0) <;>
              simp [dropZeroNumerics, applyFormatting, hc, hhh, hw, htr, hsl,
                jsOptNumTruthy, jsNumTruthy, fontChainTruthy, fontCommand]

/-- C1 counterexample: a text leaf with the bold flag set to false and the
italic flag set to true. The claim's trigger holds (the italic flag is
set), yet `applyFormatting` emits no token at all: the source tests
`font ?? bold ?? italic`, and the defined-but-false bold flag short-circuits
the chain to a falsy value. -/
theorem C1_claim_counterexample :
    applyFormatting ['x'] { bold := some false, italic := some true } = ['x']
    ∧ ({ bold := some false, italic := some true : Fmt }).italic = some true
    ∧ ({ bold := some false, italic := some true : Fmt }).font = none := by
  decide

/-- C1 (amended): the font token is emitted exactly when the first defined
one among family, bold flag and italic flag is truthy; within the token the
font-level bits fall back to the character-level flags when absent and the
family falls back to `Arial`. Stated as invariance of `applyFormatting`
under the claim-worded normal form `normalizeFont`. -/
theorem C1_font_token_condition (s : List Char) (f : Fmt) :
    applyFormatting s (normalizeFont f) = applyFormatting s f := by
  rcases f with ⟨b, i, u, o, sk, sub, sup, c, rgb, fo, fb, fi, hh, w, tr, sl⟩
  rcases fo with _ | fam
  · rcases b with _ | bv
    · rcases i with _ | iv
      · simp [normalizeFont, firstDefinedTruthy, applyFormatting, fontChainTruthy,
          jsOptBoolTruthy, jsOptStrTruthy, effFontBold, effFontItalic, fontCommand,
          Option.orElse]
      · cases iv <;> rcases fb with _ | fbv <;> rcases fi with _ | fiv <;>
          simp [normalizeFont, firstDefinedTruthy, applyFormatting, fontChainTruthy,
            jsOptBoolTruthy, jsOptStrTruthy, effFontBold, effFontItalic, fontCommand,
            Option.orElse]
    · cases bv <;> rcases fb with _ | fbv <;> rcases fi with _ | fiv <;>
        simp [normalizeFont, firstDefinedTruthy, applyFormatting, fontChainTruthy,
          jsOptBoolTruthy, jsOptStrTruthy, effFontBold, effFontItalic, fontCommand,
          Option.orElse]
  · by_cases hfam : fam = []
    · subst hfam
      simp [normalizeFont, firstDefinedTruthy, applyFormatting, fontChainTruthy,
        jsOptBoolTruthy, jsOptStrTruthy, effFontBold, effFontItalic, fontCommand,
        Option.orElse]
    · rcases fb with _ | fbv <;> rcases fi with _ | fiv <;>
        simp [normalizeFont, firstDefinedTruthy, applyFormatting, fontChainTruthy,
          jsOptBoolTruthy, jsOptStrTruthy, effFontBold, effFontItalic, fontCommand,
          Option.orElse, hfam]

/-- Appending a singleton determines the last element. -/
theorem getLastAppendSingle (A : List Char) (c : Char) : (A ++ [c]).getLast? = some c :=
  (List.getLast?_append_cons A c []).trans rfl

/-- Dropping the last element after appending a singleton recovers the
original list. -/
theorem dropLastAppendSingle (A : List Char) (c : Char) : (A ++ [c]).dropLast = A := by
  induction A with
  | nil => rfl
  | cons a t ih =>
    cases t with
    | nil => rfl
    | cons b u => exact congrArg (a :: ·) ih

/-- The last element after appending a pair. -/
theorem getLastAppendPair (A : List Char) (b c : Char) : (A ++ [b, c]).getLast? = some c := by
  have hsplit : A ++ [b, c] = (A ++ [b]) ++ [c] := by simp
  rw [hsplit, getLastAppendSingle]

/-- `dropLast` distributes over an append whose right part is nonempty. -/
theorem dropLastAppendCons (s : List Char) (d : Char) (l : List Char) :
    (s ++ d :: l).dropLast = s ++ (d :: l).dropLast := by
  induction s with
  | nil => rfl
  | cons a t ih =>
    cases t with
    | nil => rfl
    | cons b u => exact congrArg (a :: ·) ih

/-- `getLast?` through a cons over an append ending in a cons. -/
theorem getLastConsAppendCons (c : Char) (s : List Char) (d : Char) (l : List Char) :
    (c :: (s ++ d :: l)).getLast? = (d :: l).getLast? := by
  rw [← List.cons_append]
  exact List.getLast?_append_cons (c :: s) d l

/-- `dropLast` through a cons over an append ending in a cons. -/
theorem dropLastConsAppendCons (c : Char) (s : List Char) (d : Char) (l : List Char) :
    (c :: (s ++ d :: l)).dropLast = c :: (s ++ (d :: l).dropLast) := by
  rw [← List.cons_append, dropLastAppendCons (c :: s) d l, List.cons_append]

/-- C6 counterexample: with the alignment unset and tab stops present, the
emitted command is `\pqlt1;` — the defaulted `ql` is emitted without a
trailing comma, so it is not comma-separated from the tabs field (the claim
would demand `\pql,t1;`). -/
theorem C6_claim_counterexample :
    paragraphCommand { tabs := some [some 1] } = ("\\pqlt1;").data
    ∧ ("\\pqlt1;").data ≠ ("\\pql,t1;").data := by
  decide

/-- C6 (amended): for every paragraph-properties record the emitted command
is `\p`, then the present fields in the fixed order indent, left, right,
alignment (defaulting to `ql`), tab stops, comma-separated — except that
the defaulted `ql` is concatenated with a following tab-stops field without
a comma — and `;`-terminated. Field order is fixed by construction
regardless of how the record was built. -/
theorem C6_paragraph_field_order (p : ParaProps) :
    paragraphCommand p = specParagraphCommand p := by
  rcases p with ⟨pi, pl, pr, pa, pt⟩
  rcases pi with _ | v1 <;> rcases pl with _ | v2 <;> rcases pr with _ | v3 <;>
    rcases pa with _ | a <;> rcases pt with _ | ts <;>
      (try rcases ts with _ | ⟨t1, ts⟩) <;>
        simp [paragraphCommand, specParagraphCommand, joinStrsComma, getLastAppendSingle,
          dropLastAppendSingle, getLastAppendPair, getLastConsAppendCons,
          dropLastConsAppendCons, List.getLast?_append_cons, dropLastAppendCons,
          List.getLast?_cons_cons, List.dropLast_cons₂, List.append_assoc]

/-- Reading the counter cell just written yields the written (nonzero)
value. -/
theorem readCounter_write (v : Nat) (hv : v ≠ 0) :
    ∀ (arr : List (Option Nat)) (i : Nat), readCounter (writeCounter arr i v) i = v := by
  intro arr
  induction arr with
  | nil =>
    intro i
    induction i with
    | zero => simp [writeCounter, readCounter, hv]
    | succ j ihj => simpa [writeCounter, readCounter] using ihj
  | cons h t ih =>
    intro i
    cases i with
    | zero => simp [writeCounter, readCounter, hv]
    | succ j => simpa [writeCounter, readCounter] using ih j

/-- Unfolding of the serializer on a plain list item (type `li`, no stack,
no paragraph) under an ordered-list context: a line break, the depth
indent, the current counter value, a dot-space, the item content; the
counter cell is incremented. -/
theorem nodeToMText_plain_li (n : MNode) (d : Nat) (arr : List (Option Nat))
    (ht : n.ntype = .li) (hs : n.stack = none) (hp : n.para = none) :
    nodeToMText n (some ⟨.ol, d, arr⟩)
      = ('\\' :: 'P' :: (spacesIndent d ++ natStr (readCounter arr (d - 1))
           ++ '.' :: ' ' :: liContent n),
         writeCounter arr (d - 1) (readCounter arr (d - 1) + 1)) := by
  rcases n with ⟨t, tx, ch, f, sk, pa⟩
  simp only [MNode.ntype] at ht
  simp only [MNode.stack] at hs
  simp only [MNode.para] at hp
  subst ht; subst hs; subst hp
  cases ch with
  | none => simp [nodeToMText, liContent, MNode.children]
  | some cs => simp [nodeToMText, liContent, MNode.children, seqNoCtx]

/-- Serializing a run of plain list items under an ordered-list context
numbers them consecutively from the current counter value of the context's
depth. -/
theorem seqToMText_plain_li (d : Nat) :
    ∀ (lis : List MNode) (arr : List (Option Nat)),
      (∀ n ∈ lis, n.ntype = .li ∧ n.stack = none ∧ n.para = none) →
      (seqToMText lis (some ⟨.ol, d, arr⟩)).1 = numItems d (readCounter arr (d - 1)) lis := by
  intro lis
  induction lis with
  | nil => intro arr _; rfl
  | cons n rest ih =>
    intro arr h
    have hn := h n (by simp)
    have step := nodeToMText_plain_li n d arr hn.1 hn.2.1 hn.2.2
    have tail := ih (writeCounter arr (d - 1) (readCounter arr (d - 1) + 1))
      (fun m hm => h m (by simp [hm]))
    simp [seqToMText, step, tail, readCounter_write _ (Nat.succ_ne_zero _),
      numItems, List.append_assoc]

/-- C2: ordered-list numbering is transient per-depth counter state.
(1) An ordered-list container whose children are plain list items numbers
them 1, 2, 3, … — the counter for the (new) depth starts at 1 and keeps
incrementing across sibling items of the container. (2) Nesting a second
ordered list between items: the inner list gets its own depth-2 counter
starting at 1 while the outer counter resumes unchanged after it. (3)
Sibling ordered lists at the same depth are fresh containers and restart
at 1. -/
theorem C2_ordered_list_numbering :
    (∀ (lis : List MNode) (fmt : Fmt),
      (∀ n ∈ lis, n.ntype = .li ∧ n.stack = none ∧ n.para = none) →
      nodeToMText (MNode.mk .ol none (some lis) fmt none none) none
        = (numItems 1 1 lis, []))
    ∧ convert [MNode.mk .ol none (some
        [MNode.mk .li none (some [MNode.mk .text (some ['a']) none noFmt none none]) noFmt none none,
         MNode.mk .ol none (some
           [MNode.mk .li none (some [MNode.mk .text (some ['b']) none noFmt none none]) noFmt none none,
            MNode.mk .li none (some [MNode.mk .text (some ['c']) none noFmt none none]) noFmt none none])
           noFmt none none,
         MNode.mk .li none (some [MNode.mk .text (some ['d']) none noFmt none none]) noFmt none none])
        noFmt none none]
      = ("\\P1. a\\P  1. b\\P  2. c\\P2. d").data
    ∧ convert [MNode.mk .ol none (some
        [MNode.mk .ol none (some
           [MNode.mk .li none (some [MNode.mk .text (some ['a']) none noFmt none none]) noFmt none none,
            MNode.mk .li none (some [MNode.mk .text (some ['b']) none noFmt none none]) noFmt none none])
           noFmt none none,
         MNode.mk .ol none (some
           [MNode.mk .li none (some [MNode.mk .text (some ['c']) none noFmt none none]) noFmt none none])
           noFmt none none])
        noFmt none none]
      = ("\\P  1. a\\P  2. b\\P  1. c").data := by
  refine ⟨?_, by decide, by decide⟩
  intro lis fmt h
  have hs := seqToMText_plain_li 1 lis [some 1] h
  simp [nodeToMText, hs, readCounter, ctxArr]

/-- C2 witness: the general numbering statement applied to a concrete
two-item ordered list. -/
theorem C2_ordered_list_numbering_witness :
    nodeToMText (MNode.mk .ol none (some
        [MNode.mk .li none (some [MNode.mk .text (some ['x']) none noFmt none none]) noFmt none none,
         MNode.mk .li none (some [MNode.mk .text (some ['y']) none noFmt none none]) noFmt none none])
        noFmt none none) none
      = (numItems 1 1
          [MNode.mk .li none (some [MNode.mk .text (some ['x']) none noFmt none none]) noFmt none none,
           MNode.mk .li none (some [MNode.mk .text (some ['y']) none noFmt none none]) noFmt none none], [])
    ∧ numItems 1 1
        [MNode.mk .li none (some [MNode.mk .text (some ['x']) none noFmt none none]) noFmt none none,
         MNode.mk .li none (some [MNode.mk .text (some ['y']) none noFmt none none]) noFmt none none]
      = ("\\P1. x\\P2. y").data := by
  refine ⟨C2_ordered_list_numbering.1 _ noFmt ?_, by decide⟩
  intro n hn
  simp only [List.mem_cons, List.mem_singleton] at hn
  rcases hn with rfl | rfl | hn
  · exact ⟨rfl, rfl, rfl⟩
  · exact ⟨rfl, rfl, rfl⟩
  · cases hn

/-- Formatting statements other than the two tracking ones leave the
`tracking` field unchanged. -/
theorem tracking_untouched (el : Elem) (f : Fmt) :
    (fsBoldTag el f).tracking = f.tracking
    ∧ (fsItalicTag el f).tracking = f.tracking
    ∧ (fsUnderline el f).tracking = f.tracking
    ∧ (fsOverline el f).tracking = f.tracking
    ∧ (fsStrike el f).tracking = f.tracking
    ∧ (fsSub el f).tracking = f.tracking
    ∧ (fsSup el f).tracking = f.tracking
    ∧ (fsColor el f).tracking = f.tracking
    ∧ (fsFont el f).tracking = f.tracking
    ∧ (fsWidth el f).tracking = f.tracking
    ∧ (fsWidthClass el f).tracking = f.tracking := by
  refine ⟨?_, ?_, ?_, ?_, ?_, ?_, ?_, ?_, ?_, ?_, ?_⟩ <;>
    · simp only [fsBoldTag, fsItalicTag, fsUnderline, fsOverline, fsStrike, fsSub, fsSup,
        fsColor, fsFont, fsWidth, fsWidthClass]
      split <;> (try split) <;> (try split) <;> rfl

/-- Under the class hypothesis the tracking field of the extracted
formatting is exactly the letter-spacing parse (absent on a null parse). -/
theorem extractFormatting_tracking (el : Elem)
    (hclass : jsIncludes (("letterspacing").data) el.className = false) :
    (extractFormatting el).tracking
      = (if el.style.letterSpacing ≠ [] then
          (match parseCssValue el.style.letterSpacing with
           | some v => some v
           | none => none)
        else none) := by
  have hbase : (fsFont el (fsColor el (fsSup el (fsSub el (fsStrike el (fsOverline el
      (fsUnderline el (fsItalicTag el (fsBoldTag el {}))))))))).tracking = none := by
    rw [(tracking_untouched el _).2.2.2.2.2.2.2.2.1,
      (tracking_untouched el _).2.2.2.2.2.2.2.1,
      (tracking_untouched el _).2.2.2.2.2.2.1,
      (tracking_untouched el _).2.2.2.2.2.1,
      (tracking_untouched el _).2.2.2.2.1,
      (tracking_untouched el _).2.2.2.1,
      (tracking_untouched el _).2.2.1,
      (tracking_untouched el _).2.1,
      (tracking_untouched el _).1]
  have hcl : ∀ g : Fmt, fsTrackingClass el g = g := by
    intro g; unfold fsTrackingClass; simp [hclass]
  unfold extractFormatting
  rw [(tracking_untouched el _).2.2.2.2.2.2.2.2.2.2,
    (tracking_untouched el _).2.2.2.2.2.2.2.2.2.1, hcl]
  unfold fsTracking
  split
  · split
    · rfl
    · exact hbase
  · exact hbase

/-- Paragraph statements leave the fields they do not target unchanged. -/
theorem para_untouched (el : Elem) (st : List Char) (p : ParaProps) :
    ((psAlign el p).indent = p.indent ∧ (psAlign el p).left = p.left
      ∧ (psAlign el p).right = p.right)
    ∧ ((psIndent el p).left = p.left ∧ (psIndent el p).right = p.right
      ∧ (psIndent el p).align = p.align)
    ∧ ((psLeft el p).indent = p.indent ∧ (psLeft el p).right = p.right
      ∧ (psLeft el p).align = p.align)
    ∧ ((psRight el p).indent = p.indent ∧ (psRight el p).left = p.left
      ∧ (psRight el p).align = p.align)
    ∧ ((fbIndent st p).align = p.align ∧ (fbLeft st p).align = p.align
      ∧ (fbRight st p).align = p.align) := by
  refine ⟨⟨?_, ?_, ?_⟩, ⟨?_, ?_, ?_⟩, ⟨?_, ?_, ?_⟩, ⟨?_, ?_, ?_⟩, ⟨?_, ?_, ?_⟩⟩ <;>
    · simp only [psAlign, psIndent, psLeft, psRight, fbIndent, fbLeft, fbRight]
      split <;> (try split) <;> rfl

/-- With no raw style attribute the fallback block is the identity. -/
theorem psAttrFallback_none (el : Elem) (p : ParaProps) (hattr : el.attrStyle = none) :
    psAttrFallback el p = p := by
  unfold psAttrFallback
  rw [hattr]

/-- The raw-style fallback block never touches the alignment. -/
theorem psAttrFallback_align (el : Elem) (p : ParaProps) :
    (psAttrFallback el p).align = p.align := by
  cases hst : el.attrStyle with
  | none => simp [psAttrFallback, hst]
  | some st2 =>
    simp only [psAttrFallback, hst]
    split
    · rw [(para_untouched el st2 _).2.2.2.2.2.2, (para_untouched el st2 _).2.2.2.2.2.1,
        (para_untouched el st2 _).2.2.2.2.1]
    · rfl

/-- With no raw style attribute, each numeric paragraph field is exactly
its inline-style parse (absent on a null parse). -/
theorem extractParagraphProperties_fields (el : Elem) (hattr : el.attrStyle = none) :
    ((extractParagraphProperties el).indent
      = (if el.style.textIndent ≠ [] then
          (match parseCssValue el.style.textIndent with
           | some v => some v | none => none) else none))
    ∧ ((extractParagraphProperties el).left
      = (if el.style.marginLeft ≠ [] then
          (match parseCssValue el.style.marginLeft with
           | some v => some v | none => none) else none))
    ∧ ((extractParagraphProperties el).right
      = (if el.style.marginRight ≠ [] then
          (match parseCssValue el.style.marginRight with
           | some v => some v | none => none) else none)) := by
  unfold extractParagraphProperties
  rw [psAttrFallback_none el _ hattr]
  refine ⟨?_, ?_, ?_⟩
  · rw [(para_untouched el [] _).2.2.2.1.1, (para_untouched el [] _).2.2.1.1]
    unfold psIndent
    split
    · split
      · rfl
      · exact (para_untouched el [] _).1.1
    · exact (para_untouched el [] _).1.1
  · rw [(para_untouched el [] _).2.2.2.1.2.1]
    unfold psLeft
    split
    · split
      · rfl
      · rw [(para_untouched el [] _).2.1.1, (para_untouched el [] _).1.2.1]
    · rw [(para_untouched el [] _).2.1.1, (para_untouched el [] _).1.2.1]
  · unfold psRight
    split
    · split
      · rfl
      · rw [(para_untouched el [] _).2.2.1.2.1, (para_untouched el [] _).2.1.2.1,
          (para_untouched el [] _).1.2.2]
    · rw [(para_untouched el [] _).2.2.1.2.1, (para_untouched el [] _).2.1.2.1,
        (para_untouched el [] _).1.2.2]

/-- C3 counterexample: `letter-spacing: 5vh` carries an unrecognized unit,
yet the parser assigns tracking 5 (parseFloat reads the leading number and
the unit falls into the bare-number branch); and `text-indent: abcem` is
non-numeric yet ends in `em`, so the NaN result of parseFloat is still
assigned to the indent field. In both cases the claim demands the field be
left unset. -/
theorem C3_claim_counterexample :
    (extractFormatting { tagName := ("SPAN").data,
                         style := { letterSpacing := ("5vh").data } }).tracking = some (some 5)
    ∧ (extractParagraphProperties { tagName := ("P").data,
                                    style := { textIndent := ("abcem").data } }).indent = some none
    ∧ (some (some (5 : Rat)) : Option JsNum) ≠ none
    ∧ (some (none : JsNum) : Option JsNum) ≠ none := by
  decide

/-- C3 (amended): a numeric style value is left unset exactly when
`parseCssValue` yields null — that is, when the value is empty, or is
non-numeric without a recognized `em`/`px`/`pt` suffix. Non-numeric values
with a recognized suffix are assigned as NaN, and an unrecognized unit
after a leading number is ignored. Stated for the four consuming sites
(under no marker class and no raw style attribute, which would add other
sources for the same fields). -/
theorem C3_unset_iff_null_parse (el : Elem)
    (hclass : jsIncludes (("letterspacing").data) el.className = false)
    (hattr : el.attrStyle = none) :
    ((extractFormatting el).tracking = none ↔ parseCssValue el.style.letterSpacing = none)
    ∧ ((extractParagraphProperties el).indent = none ↔ parseCssValue el.style.textIndent = none)
    ∧ ((extractParagraphProperties el).left = none ↔ parseCssValue el.style.marginLeft = none)
    ∧ ((extractParagraphProperties el).right = none ↔ parseCssValue el.style.marginRight = none)
    ∧ (∀ v : List Char, v ≠ [] →
        ¬ (("em").data).isSuffixOf (trimChars v) → ¬ (("px").data).isSuffixOf (trimChars v) →
        ¬ (("pt").data).isSuffixOf (trimChars v) →
        (parseCssValue v = none ↔ jsParseFloat (trimChars v) = none)) := by
  have hfields := extractParagraphProperties_fields el hattr
  refine ⟨?_, ?_, ?_, ?_, ?_⟩
  · rw [extractFormatting_tracking el hclass]
    by_cases hls : el.style.letterSpacing = []
    · simp [hls, parseCssValue]
    · rcases hpv : parseCssValue el.style.letterSpacing with _ | v <;> simp [hls, hpv]
  · rw [hfields.1]
    by_cases hls : el.style.textIndent = []
    · simp [hls, parseCssValue]
    · rcases hpv : parseCssValue el.style.textIndent with _ | v <;> simp [hls, hpv]
  · rw [hfields.2.1]
    by_cases hls : el.style.marginLeft = []
    · simp [hls, parseCssValue]
    · rcases hpv : parseCssValue el.style.marginLeft with _ | v <;> simp [hls, hpv]
  · rw [hfields.2.2]
    by_cases hls : el.style.marginRight = []
    · simp [hls, parseCssValue]
    · rcases hpv : parseCssValue el.style.marginRight with _ | v <;> simp [hls, hpv]
  · intro v hv hem hpx hpt
    unfold parseCssValue
    rw [if_neg (by simpa using hv)]
    simp only [hem, hpx, hpt, if_neg, Bool.not_eq_true]
    rcases hq : jsParseFloat (trimChars v) with _ | q <;> simp [hq]

/-- C3 witness: the amended characterization applied to a concrete element
whose letter-spacing is non-numeric with no recognized suffix: the field is
unset. -/
theorem C3_unset_iff_null_parse_witness :
    (extractFormatting { tagName := ("SPAN").data,
                         style := { letterSpacing := ("junk").data } }).tracking = none :=
  (C3_unset_iff_null_parse { tagName := ("SPAN").data,
                             style := { letterSpacing := ("junk").data } }
    (by decide) rfl).1.mpr (by decide)

/-- C4: when the structural align attribute, the inline textAlign property
and the raw style-attribute text-align declaration all carry recognized
values, the parsed alignment is the one extracted from the raw style string
(checked last, overwriting the other two), with `justify` mapped to
`justified`. -/
theorem C4_raw_style_align_wins (el : Elem) (aa st : List Char) (raw : RawAlign)
    (_h1 : el.attrAlign = some aa)
    (_h2 : aa = ("left").data ∨ aa = ("right").data ∨ aa = ("center").data
      ∨ aa = ("justify").data)
    (_h3 : el.style.textAlign = ("left").data ∨ el.style.textAlign = ("right").data
      ∨ el.style.textAlign = ("center").data ∨ el.style.textAlign = ("justify").data)
    (h4 : el.attrStyle = some st)
    (h5 : scanTextAlign st = some raw) :
    (extractParagraphProperties el).align = some (rawToAlign raw) := by
  have hst : st ≠ [] := by
    intro h
    subst h
    simp [scanTextAlign] at h5
  have hres : resolvedAlign el = some (rawToAlign raw) := by
    unfold resolvedAlign alignFromRaw
    simp [h4, h5, hst]
  unfold extractParagraphProperties
  rw [psAttrFallback_align, (para_untouched el [] _).2.2.2.1.2.2,
    (para_untouched el [] _).2.2.1.2.2, (para_untouched el [] _).2.1.2.2]
  unfold psAlign
  rw [hres]

/-- C4 witness: the three sources disagree (`left` attribute, `right`
inline property, `justify` in the raw style string); the raw declaration
wins and maps to `justified`. -/
theorem C4_raw_style_align_wins_witness :
    (extractParagraphProperties { tagName := ("P").data,
                                  style := { textAlign := ("right").data },
                                  attrAlign := some (("left").data),
                                  attrStyle := some (("text-align: justify").data) }).align
      = some PAlign.justified :=
  C4_raw_style_align_wins { tagName := ("P").data,
                            style := { textAlign := ("right").data },
                            attrAlign := some (("left").data),
                            attrStyle := some (("text-align: justify").data) }
    (("left").data) (("text-align: justify").data) RawAlign.justify
    rfl (Or.inl rfl) (Or.inr (Or.inl rfl)) rfl (by decide)
